import Mathlib

/-!
Shallow embedding of the spatial hashing core of big_space
(src/src/spatial_hash.rs): the hash stages, the bidirectional
spatial index, and the neighbor query engine.
-/

/-- Entity ids (Bevy `Entity`, reduced to its stable id bits). -/
abbrev Entity := Nat

/-- A 64-bit spatial hash digest. -/
abbrev Digest := Nat

/-- A discrete 3D grid cell address.  The source type `GridCell<P>` is generic
over an integer precision; the core enforces no bound, so coordinates are
modelled as unbounded integers. -/
structure GridCell where
  x : Int
  y : Int
  z : Int
deriving DecidableEq, Repr

/-- Modelled from the spec: the `GridCell` type and its addition with an
`IVec3` offset live outside src; spec section 3 says a cell address supports
component-wise addition with an integer offset vector. -/
def GridCell.add (c o : GridCell) : GridCell :=
  ⟨c.x + o.x, c.y + o.y, c.z + o.z⟩

instance : Add GridCell := ⟨GridCell.add⟩

/-- Modelled from the spec: `AHasher` comes from the external `ahash` crate.
The spec guarantees only that the digest is a deterministic function of what
was hashed within one process run, so the hasher state is modelled as the
sequence of 64-bit words written so far, and `finish` as an arbitrary fixed
deterministic mix of that sequence. -/
structure AHasher where
  words : List Nat
deriving DecidableEq, Repr

/-- The default (fresh) hasher state. -/
def AHasher.default : AHasher := ⟨[]⟩

/-- `Hasher::write_u64`: appends one 64-bit word to the hashed stream. -/
def AHasher.write_u64 (hs : AHasher) (w : Nat) : AHasher :=
  ⟨hs.words ++ [w % 18446744073709551616]⟩

/-- `Clone::clone` on the hasher: the state is copied, not shared. -/
def AHasher.clone (hs : AHasher) : AHasher := hs

/-- `Hasher::finish`: a fixed deterministic 64-bit mix of the written words
(the concrete constants stand in for the ahash algorithm; no claim depends
on them). -/
def AHasher.finish (hs : AHasher) : Nat :=
  hs.words.foldl (fun a w => (a * 6364136223846793005 + w + 1) % 18446744073709551616) 0

/-- Two's-complement 64-bit image of an integer, as fed to the hasher. -/
def u64ofInt (z : Int) : Nat := (z % (18446744073709551616 : Int)).toNat

/-- Modelled from the spec: the `Hash` impl of `GridCell` lives outside src;
it hashes the three coordinates componentwise, in order. -/
def GridCell.hashInto (c : GridCell) (hs : AHasher) : AHasher :=
  ((hs.write_u64 (u64ofInt c.x)).write_u64 (u64ofInt c.y)).write_u64 (u64ofInt c.z)

/-- A halfway-hashed spatial hash, only taking into account the parent
(frame identity), and not the cell. -/
structure PartialSpatialHash where
  hasher : AHasher
deriving DecidableEq, Repr

/-- `PartialSpatialHash::new`: seed a hasher from the parent frame identity
alone (`hasher.write_u64(parent.to_bits())`). -/
def PartialSpatialHash.new (parent : Nat) : PartialSpatialHash :=
  ⟨AHasher.default.write_u64 parent⟩

/-- `PartialSpatialHash::generate`: clone the partial hasher state, mix in
the grid cell, and finish, producing the final digest.  The original partial
state is not mutated. -/
def PartialSpatialHash.generate (p : PartialSpatialHash) (cell : GridCell) : Digest :=
  (cell.hashInto p.hasher.clone).finish

/-- `SpatialHash::new`: generate a digest from parent and cell. -/
def SpatialHash.new (parent : Nat) (cell : GridCell) : Digest :=
  (PartialSpatialHash.new parent).generate cell

/-- Sequential reuse of one partial hash across many cells: each `generate`
call threads the (unchanged, because cloned) partial state to the next. -/
def PartialSpatialHash.generateSeq (p : PartialSpatialHash) (cells : List GridCell) :
    List Digest × PartialSpatialHash :=
  cells.foldl (fun acc c => (acc.1 ++ [acc.2.generate c], acc.2)) ([], p)

/-- First-match association-list lookup, the embedding of `HashMap::get`
(keys are unique in a hash map, so first match is the match). -/
def lookupKey {β : Type} (k : Nat) : List (Nat × β) → Option β
  | [] => none
  | p :: ps => if p.1 = k then some p.2 else lookupKey k ps

/-- The bidirectional spatial index `SpatialHashMap<P, F>`: a forward map
from digest to the set of entities in that cell, and a reverse map from
entity to its last-known digest.  Hash maps are embedded as association
lists and hash sets as lists. -/
structure SpatialHashMap where
  map : List (Digest × List Entity)
  reverse_map : List (Entity × Digest)
deriving DecidableEq, Repr

/-- `Default::default` for the index: both maps empty. -/
def SpatialHashMap.default : SpatialHashMap := ⟨[], []⟩

/-- `HashSet::insert`: inserting a present element leaves the set unchanged. -/
def bucketInsert (l : List Entity) (e : Entity) : List Entity :=
  if e ∈ l then l else l ++ [e]

/-- The tail of `SpatialHashMap::insert`:
`self.map.entry(hash).and_modify(|list| { list.insert(entity); }).or_insert_with(...)`.
If the bucket exists the entity is added to it, otherwise a fresh singleton
bucket is created. -/
def SpatialHashMap.mapEntryInsert (s : SpatialHashMap) (entity : Entity) (hash : Digest) :
    SpatialHashMap :=
  if (lookupKey hash s.map).isSome then
    ⟨s.map.map (fun p => if p.1 = hash then (p.1, bucketInsert p.2 entity) else p),
     s.reverse_map⟩
  else
    ⟨s.map ++ [(hash, [entity])], s.reverse_map⟩

/-- `SpatialHashMap::insert` (the upsert): if the reverse map knows the
entity and the hash is unchanged, early exit; if it differs, remove the
entity from the old bucket (`self.map.get_mut(old_hash).map(|entities|
entities.remove(&entity))` - the bucket itself is kept) and overwrite the
reverse entry (`*old_hash = hash`); then insert into the new bucket.
Note that the source never creates a reverse-map entry for an entity the
reverse map does not already know. -/
def SpatialHashMap.insert (s : SpatialHashMap) (entity : Entity) (hash : Digest) :
    SpatialHashMap :=
  match lookupKey entity s.reverse_map with
  | some old_hash =>
    if hash = old_hash then s
    else
      SpatialHashMap.mapEntryInsert
        ⟨s.map.map (fun p => if p.1 = old_hash then (p.1, p.2.erase entity) else p),
         s.reverse_map.map (fun q => if q.1 = entity then (q.1, hash) else q)⟩
        entity hash
  | none => s.mapEntryInsert entity hash

/-- `SpatialHashMap::get`: the bucket of a digest, if present. -/
def SpatialHashMap.get (s : SpatialHashMap) (hash : Digest) : Option (List Entity) :=
  lookupKey hash s.map

/-- `SpatialHashMap::iter`: traversal of all buckets of the forward map. -/
def SpatialHashMap.iter (s : SpatialHashMap) : List (Digest × List Entity) :=
  s.map

/-- Modelled from the spec: src exposes no `remove` operation on the index;
spec section 4.2 specifies `remove(entity)`: deletes the entity from its
current digest's set and from the reverse map; no-op if absent. -/
def SpatialHashMap.remove (s : SpatialHashMap) (entity : Entity) : SpatialHashMap :=
  match lookupKey entity s.reverse_map with
  | none => s
  | some d =>
    ⟨s.map.map (fun p => if p.1 = d then (p.1, p.2.erase entity) else p),
     s.reverse_map.filter (fun q => decide (q.1 ≠ entity))⟩

/-- Index states reachable from the default state by a sequence of upserts. -/
inductive SpatialHashMap.Reachable : SpatialHashMap → Prop
  | base : SpatialHashMap.Reachable SpatialHashMap.default
  | step : ∀ (s : SpatialHashMap) (e : Entity) (d : Digest),
      SpatialHashMap.Reachable s → SpatialHashMap.Reachable (s.insert e d)

/-- The well-formedness invariant of the bidirectional index: unique keys,
buckets are duplicate-free, and the two maps are strict inverses. -/
def GoodState (s : SpatialHashMap) : Prop :=
  (s.map.map Prod.fst).Nodup ∧
  (s.reverse_map.map Prod.fst).Nodup ∧
  (∀ p ∈ s.map, p.2.Nodup) ∧
  (∀ q ∈ s.reverse_map, q.1 ∈ (lookupKey q.2 s.map).getD []) ∧
  (∀ p ∈ s.map, ∀ e ∈ p.2, lookupKey e s.reverse_map = some p.1)

/-- The i-th candidate offset enumerated by `SpatialHashMap::neighbors`:
with `radius = cell_radius as i32`, `search_width = 1 + 2 * radius` and
`center = -radius`, the source computes
`x = center + i`, `y = center + i % search_width`,
`z = center + i % search_width.pow(2)`. -/
def neighborOffset (radius i : Nat) : GridCell :=
  ⟨-(radius : Int) + (i : Int),
   -(radius : Int) + (i : Int) % (1 + 2 * (radius : Int)),
   -(radius : Int) + (i : Int) % ((1 + 2 * (radius : Int)) ^ 2)⟩

/-- All candidate offsets: `i` ranges over `0..search_width.pow(3)`. -/
def neighborOffsets (radius : Nat) : List GridCell :=
  (List.range ((1 + 2 * radius) ^ 3)).map (neighborOffset radius)

/-- The candidate cells around a center cell: `cell + offset` for each
enumerated offset. -/
def candidateCells (radius : Nat) (cell : GridCell) : List GridCell :=
  (neighborOffsets radius).map (fun off => cell + off)

/-- `SpatialHashMap::neighbors`: for each candidate cell, compute its digest
with the shared partial hash for the frame (`hf` is
`PartialSpatialHash::new(parent).generate`, passed as a function), look it
up, and yield the non-empty ones as (digest, cell, entity set). -/
def SpatialHashMap.neighbors (s : SpatialHashMap) (cell_radius : Nat)
    (hf : GridCell → Digest) (cell : GridCell) : List (Digest × GridCell × List Entity) :=
  (candidateCells cell_radius cell).filterMap (fun ncell =>
    match s.get (hf ncell) with
    | some set => if set = [] then none else some (hf ncell, ncell, set)
    | none => none)

/-- `SpatialHashMap::neighbors` with the hash function the source builds
from the parent frame identity. -/
def SpatialHashMap.neighborsOf (s : SpatialHashMap) (cell_radius : Nat)
    (parent : Nat) (cell : GridCell) : List (Digest × GridCell × List Entity) :=
  s.neighbors cell_radius (SpatialHash.new parent) cell

/-- `HashMap::insert` on the flood result map: overwrite the value if the
key is present, append otherwise. -/
def insertKV (res : List (Digest × List Entity)) (k : Digest) (v : List Entity) :
    List (Digest × List Entity) :=
  if (lookupKey k res).isSome then
    res.map (fun p => if p.1 = k then (p.1, v) else p)
  else res ++ [(k, v)]

/-- One step of the `for_each` body of `neighbors_flood`: insert the
neighbor into the result, and push its cell on the work stack exactly when
its digest was newly inserted (`result.insert(hash, set).is_none()`). -/
def floodFoldStep (rs : List (Digest × List Entity) × List GridCell)
    (t : Digest × GridCell × List Entity) :
    List (Digest × List Entity) × List GridCell :=
  if (lookupKey t.1 rs.1).isSome then (insertKV rs.1 t.1 t.2.2, rs.2)
  else (insertKV rs.1 t.1 t.2.2, t.2.1 :: rs.2)

/-- Expanding one popped cell: fold the `for_each` body over its neighbors. -/
def floodStep (s : SpatialHashMap) (r : Nat) (hf : GridCell → Digest) (c : GridCell)
    (res : List (Digest × List Entity)) (stack : List GridCell) :
    List (Digest × List Entity) × List GridCell :=
  (s.neighbors r hf c).foldl floodFoldStep (res, stack)

/-- The `while let Some(cell) = stack.pop()` loop of `neighbors_flood`,
made total with explicit fuel: `none` means the fuel ran out before the
stack emptied. -/
def floodLoop (s : SpatialHashMap) (r : Nat) (hf : GridCell → Digest) :
    Nat → List GridCell → List (Digest × List Entity) →
    Option (List (Digest × List Entity))
  | _, [], res => some res
  | 0, _ :: _, _ => none
  | fuel + 1, c :: stack, res =>
    let rs := floodStep s r hf c res stack
    floodLoop s r hf fuel rs.2 rs.1

/-- `SpatialHashMap::neighbors_flood`: run the loop from a stack holding
only the start cell and an empty result.  The fuel `1 + 2 * s.map.length`
dominates the loop measure, so the loop always finishes within it. -/
def SpatialHashMap.neighbors_flood (s : SpatialHashMap) (r : Nat)
    (hf : GridCell → Digest) (cell : GridCell) : List (Digest × List Entity) :=
  (floodLoop s r hf (1 + 2 * s.map.length) [cell] []).getD []

/-- One step of the flood reachability chain: the target is a candidate cell
of the source within the radius, and its bucket is non-empty. -/
def StepsTo (s : SpatialHashMap) (r : Nat) (hf : GridCell → Digest)
    (c c2 : GridCell) : Prop :=
  c2 ∈ candidateCells r c ∧ ∃ l, s.get (hf c2) = some l ∧ l ≠ []

/-- An injective digest assignment used to instantiate hash-collision-free
scenarios: a sign-interleaved encoding of each coordinate, paired up. -/
def intCode (z : Int) : Nat := if z < 0 then 2 * (-z).toNat - 1 else 2 * z.toNat

/-- Injective cell encoding via the pairing function. -/
def cellCode (c : GridCell) : Nat :=
  Nat.pair (intCode c.x) (Nat.pair (intCode c.y) (intCode c.z))

/-- The digests of occupied buckets still missing from the flood result. -/
def missingF (s : SpatialHashMap) (res : List (Digest × List Entity)) : Finset Digest :=
  (s.map.map Prod.fst).toFinset.filter (fun d => lookupKey d res = none)

/-- The loop invariant of `neighbors_flood` relative to a start cell:
every result entry is the bucket of a reachable cell, every stacked cell is
the start or reachable, and every cell whose digest is in the result is
either still stacked or fully expanded (all its step successors are in the
result); the start cell is likewise stacked or fully expanded. -/
def FloodInv (s : SpatialHashMap) (r : Nat) (hf : GridCell → Digest) (c0 : GridCell)
    (stack : List GridCell) (res : List (Digest × List Entity)) : Prop :=
  (∀ p ∈ res, s.get p.1 = some p.2 ∧
    ∃ cc, Relation.TransGen (StepsTo s r hf) c0 cc ∧ p.1 = hf cc) ∧
  (∀ b ∈ stack, b = c0 ∨ Relation.TransGen (StepsTo s r hf) c0 b) ∧
  (∀ cc, (lookupKey (hf cc) res).isSome →
    cc ∈ stack ∨ ∀ c2, StepsTo s r hf cc c2 → (lookupKey (hf c2) res).isSome) ∧
  (c0 ∈ stack ∨ ∀ c2, StepsTo s r hf c0 c2 → (lookupKey (hf c2) res).isSome)

/-- A concrete two-cell index (entities 1 and 2 in the cells (0,0,0) and
(1,1,1) under the injective digest assignment) used to instantiate query
theorems at a collision-free input. -/
def sampleIndex : SpatialHashMap :=
  ⟨[(cellCode ⟨0, 0, 0⟩, [1]), (cellCode ⟨1, 1, 1⟩, [2])], []⟩

/-- A concrete well-formed index used to instantiate index theorems. -/
def sampleGood : SpatialHashMap :=
  ⟨[(5, [1]), (6, [2])], [(1, 5), (2, 6)]⟩

instance (s : SpatialHashMap) : Decidable (GoodState s) := by
  unfold GoodState; infer_instance

theorem lookupKey_eq_none {β : Type} {k : Nat} {l : List (Nat × β)} :
    lookupKey k l = none ↔ k ∉ l.map Prod.fst := by
  induction l with
  | nil => simp [lookupKey]
  | cons p ps ih =>
    by_cases hk : p.1 = k
    · simp [lookupKey, hk]
    · simp [lookupKey, hk, ih, Ne.symm hk]

theorem lookupKey_isSome_iff {β : Type} {k : Nat} {l : List (Nat × β)} :
    (lookupKey k l).isSome ↔ k ∈ l.map Prod.fst := by
  induction l with
  | nil => simp [lookupKey]
  | cons p ps ih =>
    by_cases hk : p.1 = k
    · simp [lookupKey, hk]
    · simp [lookupKey, hk, ih, Ne.symm hk]

theorem mem_of_lookupKey {β : Type} {k : Nat} {v : β} {l : List (Nat × β)}
    (h : lookupKey k l = some v) : (k, v) ∈ l := by
  induction l with
  | nil => simp [lookupKey] at h
  | cons p ps ih =>
    obtain ⟨a, b⟩ := p
    rw [lookupKey] at h
    by_cases hk : a = k
    · subst hk
      rw [if_pos rfl] at h
      obtain rfl : b = v := Option.some_injective _ h
      exact List.mem_cons_self _ _
    · rw [if_neg hk] at h
      exact List.mem_cons_of_mem _ (ih h)

theorem lookupKey_isSome_of_mem {β : Type} {k : Nat} {v : β} {l : List (Nat × β)}
    (h : (k, v) ∈ l) : (lookupKey k l).isSome := by
  rw [lookupKey_isSome_iff]
  exact List.mem_map_of_mem Prod.fst h

theorem lookupKey_map_keyfun {β : Type} (k k0 : Nat) (g : β → β) (l : List (Nat × β)) :
    lookupKey k (l.map (fun p => if p.1 = k0 then (p.1, g p.2) else p)) =
      if k = k0 then (lookupKey k l).map g else lookupKey k l := by
  induction l with
  | nil => simp [lookupKey]
  | cons p ps ih =>
    by_cases hpk : p.1 = k
    · by_cases hk : k = k0
      · have hp : p.1 = k0 := hpk.trans hk
        simp [lookupKey, hp, hpk, hk]
      · have hp : ¬ p.1 = k0 := fun hc => hk (hpk.symm.trans hc)
        simp [lookupKey, hp, hpk, hk]
    · by_cases hp : p.1 = k0
      · have hk0k : ¬ k0 = k := fun hc => hpk (hp.trans hc)
        have hkk0 : ¬ k = k0 := fun hc => hk0k hc.symm
        simp [lookupKey, hp, hpk, hk0k, hkk0, ih]
      · simp [lookupKey, hp, hpk, ih]

theorem lookupKey_append_left {β : Type} {k : Nat} {v : β} {l1 : List (Nat × β)}
    (l2 : List (Nat × β)) (h : lookupKey k l1 = some v) :
    lookupKey k (l1 ++ l2) = some v := by
  induction l1 with
  | nil => simp [lookupKey] at h
  | cons p ps ih =>
    by_cases hp : p.1 = k
    · simp_all [lookupKey, hp]
    · simp_all [lookupKey, hp]

theorem lookupKey_append_right {β : Type} {k : Nat} {l1 : List (Nat × β)}
    (l2 : List (Nat × β)) (h : lookupKey k l1 = none) :
    lookupKey k (l1 ++ l2) = lookupKey k l2 := by
  induction l1 with
  | nil => simp
  | cons p ps ih =>
    by_cases hp : p.1 = k
    · simp [lookupKey, hp] at h
    · simp_all [lookupKey, hp]

theorem map_id_of_mem {α : Type} {l : List α} {f : α → α}
    (h : ∀ a ∈ l, f a = a) : l.map f = l := by
  induction l with
  | nil => rfl
  | cons a as ih =>
    simp only [List.map_cons, h a (List.mem_cons_self a as)]
    rw [ih fun b hb => h b (List.mem_cons_of_mem a hb)]

theorem keys_map_keyfun {β : Type} {l : List (Nat × β)} {f : Nat × β → Nat × β}
    (h : ∀ p ∈ l, (f p).1 = p.1) : (l.map f).map Prod.fst = l.map Prod.fst := by
  induction l with
  | nil => rfl
  | cons p ps ih =>
    simp only [List.map_cons, h p (List.mem_cons_self p ps)]
    rw [ih fun q hq => h q (List.mem_cons_of_mem p hq)]

theorem mem_bucketInsert_self (l : List Entity) (e : Entity) : e ∈ bucketInsert l e := by
  unfold bucketInsert
  split
  · assumption
  · simp

theorem bucketInsert_eq_of_mem {l : List Entity} {e : Entity} (h : e ∈ l) :
    bucketInsert l e = l := by
  simp [bucketInsert, h]

theorem bucketInsert_ne_nil (l : List Entity) (e : Entity) : bucketInsert l e ≠ [] := by
  intro hc
  exact absurd (hc ▸ mem_bucketInsert_self l e) (List.not_mem_nil e)

theorem bucketInsert_nodup {l : List Entity} (e : Entity) (h : l.Nodup) :
    (bucketInsert l e).Nodup := by
  unfold bucketInsert
  split
  · exact h
  · next he =>
    rw [List.nodup_append]
    refine ⟨h, List.nodup_singleton e, ?_⟩
    intro a ha hae
    rw [List.mem_singleton] at hae
    exact he (hae ▸ ha)

theorem mem_bucketInsert_iff {l : List Entity} {a e : Entity} :
    a ∈ bucketInsert l e ↔ a ∈ l ∨ a = e := by
  unfold bucketInsert
  split
  · next he => exact ⟨Or.inl, fun h => h.elim id fun hae => hae ▸ he⟩
  · simp

theorem mapEntryInsert_reverse (s : SpatialHashMap) (e : Entity) (k : Digest) :
    (s.mapEntryInsert e k).reverse_map = s.reverse_map := by
  unfold SpatialHashMap.mapEntryInsert
  split <;> rfl

theorem mapEntryInsert_get (s : SpatialHashMap) (e : Entity) (k d : Digest) :
    (s.mapEntryInsert e k).get d =
      if d = k then some (bucketInsert ((s.get k).getD []) e) else s.get d := by
  unfold SpatialHashMap.mapEntryInsert SpatialHashMap.get
  split
  · next hsome =>
    rw [lookupKey_map_keyfun d k (fun b => bucketInsert b e) s.map]
    by_cases hd : d = k
    · subst hd
      obtain ⟨l, hl⟩ := Option.isSome_iff_exists.mp hsome
      simp [hl]
    · simp [hd]
  · next hnone =>
    rw [Option.not_isSome_iff_eq_none] at hnone
    by_cases hd : d = k
    · subst hd
      rw [lookupKey_append_right _ hnone]
      simp [lookupKey, hnone, bucketInsert]
    · have hkd : ¬ k = d := fun hc => hd hc.symm
      by_cases hds : (lookupKey d s.map).isSome
      · obtain ⟨l, hl⟩ := Option.isSome_iff_exists.mp hds
        rw [lookupKey_append_left _ hl]
        simp [hd, hl]
      · rw [Option.not_isSome_iff_eq_none] at hds
        rw [lookupKey_append_right _ hds]
        simp [lookupKey, hd, hkd, hds]

theorem insert_of_reverse_none {s : SpatialHashMap} {e : Entity} (d : Digest)
    (h : lookupKey e s.reverse_map = none) : s.insert e d = s.mapEntryInsert e d := by
  unfold SpatialHashMap.insert
  rw [h]

theorem insertKV_lookup (res : List (Digest × List Entity)) (k : Digest)
    (v : List Entity) (d : Digest) :
    lookupKey d (insertKV res k v) = if d = k then some v else lookupKey d res := by
  unfold insertKV
  split
  · next hsome =>
    rw [lookupKey_map_keyfun d k (fun _ => v) res]
    by_cases hd : d = k
    · subst hd
      obtain ⟨l, hl⟩ := Option.isSome_iff_exists.mp hsome
      simp [hl]
    · simp [hd]
  · next hnone =>
    rw [Option.not_isSome_iff_eq_none] at hnone
    by_cases hd : d = k
    · subst hd
      rw [lookupKey_append_right _ hnone]
      simp [lookupKey]
    · have hkd : ¬ k = d := fun hc => hd hc.symm
      by_cases hds : (lookupKey d res).isSome
      · obtain ⟨l, hl⟩ := Option.isSome_iff_exists.mp hds
        rw [lookupKey_append_left _ hl]
        simp [hd, hl]
      · rw [Option.not_isSome_iff_eq_none] at hds
        rw [lookupKey_append_right _ hds]
        simp [lookupKey, hd, hkd, hds]

theorem insertKV_mem {res : List (Digest × List Entity)} {k : Digest}
    {v : List Entity} {p : Digest × List Entity} (h : p ∈ insertKV res k v) :
    p ∈ res ∨ p = (k, v) := by
  unfold insertKV at h
  split at h
  · rw [List.mem_map] at h
    obtain ⟨q, hq, hfq⟩ := h
    by_cases hqk : q.1 = k
    · right
      rw [← hfq]
      simp [hqk]
    · left
      rw [← hfq]
      simpa [hqk] using hq
  · rw [List.mem_append] at h
    exact h.imp id (by simp)

theorem reachable_inv {s : SpatialHashMap} (h : s.Reachable) :
    s.reverse_map = [] ∧ (s.map.map Prod.fst).Nodup ∧ ∀ p ∈ s.map, p.2 ≠ [] := by
  induction h with
  | base =>
    refine ⟨rfl, List.nodup_nil, ?_⟩
    intro p hp
    simp [SpatialHashMap.default] at hp
  | step s e d hs ih =>
    obtain ⟨hrev, hkeys, hne⟩ := ih
    have hnone : lookupKey e s.reverse_map = none := by rw [hrev]; rfl
    rw [insert_of_reverse_none d hnone]
    unfold SpatialHashMap.mapEntryInsert
    split
    · next hsome =>
      refine ⟨hrev, ?_, ?_⟩
      · rw [keys_map_keyfun]
        · exact hkeys
        · intro p hp
          split <;> rfl
      · intro p hp
        rw [List.mem_map] at hp
        obtain ⟨q, hq, rfl⟩ := hp
        by_cases hq1 : q.1 = d
        · simp only [if_pos hq1]
          exact bucketInsert_ne_nil _ _
        · simp only [if_neg hq1]
          exact hne q hq
    · next hsome =>
      rw [Option.not_isSome_iff_eq_none] at hsome
      refine ⟨hrev, ?_, ?_⟩
      · rw [List.map_append, List.nodup_append]
        refine ⟨hkeys, by simp, ?_⟩
        intro a ha hae
        simp at hae
        subst hae
        exact absurd ha (lookupKey_eq_none.mp hsome)
      · intro p hp
        rw [List.mem_append] at hp
        rcases hp with hp | hp
        · exact hne p hp
        · rw [List.mem_singleton] at hp
          subst hp
          simp

theorem mem_neighbors_iff {s : SpatialHashMap} {r : Nat} {hf : GridCell → Digest}
    {c : GridCell} {t : Digest × GridCell × List Entity} :
    t ∈ s.neighbors r hf c ↔
      t.2.1 ∈ candidateCells r c ∧ s.get (hf t.2.1) = some t.2.2 ∧ t.2.2 ≠ [] ∧
        t.1 = hf t.2.1 := by
  unfold SpatialHashMap.neighbors
  rw [List.mem_filterMap]
  constructor
  · rintro ⟨a, ha, hfa⟩
    rcases hget : s.get (hf a) with _ | set
    · rw [hget] at hfa
      simp at hfa
    · rw [hget] at hfa
      by_cases hset : set = []
      · simp [hset] at hfa
      · simp only [if_neg hset] at hfa
        obtain rfl : (hf a, a, set) = t := Option.some_injective _ hfa
        exact ⟨ha, hget, hset, rfl⟩
  · rintro ⟨hmem, hget, hne, hkey⟩
    refine ⟨t.2.1, hmem, ?_⟩
    rw [hget]
    show (if t.2.2 = [] then none else some (hf t.2.1, t.2.1, t.2.2)) = some t
    rw [if_neg hne, ← hkey]

theorem neighbors_get {s : SpatialHashMap} {r : Nat} {hf : GridCell → Digest}
    {c : GridCell} {t : Digest × GridCell × List Entity} (h : t ∈ s.neighbors r hf c) :
    s.get t.1 = some t.2.2 ∧ t.2.2 ≠ [] := by
  obtain ⟨_, hget, hne, hkey⟩ := mem_neighbors_iff.mp h
  refine ⟨?_, hne⟩
  rw [hkey]
  exact hget

theorem neighbors_key_isSome {s : SpatialHashMap} {r : Nat} {hf : GridCell → Digest}
    {c : GridCell} {t : Digest × GridCell × List Entity} (ht : t ∈ s.neighbors r hf c) :
    (lookupKey t.1 s.map).isSome := by
  obtain ⟨hget, _⟩ := neighbors_get ht
  unfold SpatialHashMap.get at hget
  rw [hget]
  rfl

theorem stepsTo_of_mem_neighbors {s : SpatialHashMap} {r : Nat} {hf : GridCell → Digest}
    {c : GridCell} {t : Digest × GridCell × List Entity} (h : t ∈ s.neighbors r hf c) :
    StepsTo s r hf c t.2.1 := by
  obtain ⟨hmem, hget, hne, _⟩ := mem_neighbors_iff.mp h
  exact ⟨hmem, t.2.2, hget, hne⟩

theorem neighbors_complete {s : SpatialHashMap} {r : Nat} {hf : GridCell → Digest}
    {c c2 : GridCell} (h : StepsTo s r hf c c2) :
    ∃ l, (hf c2, c2, l) ∈ s.neighbors r hf c ∧ s.get (hf c2) = some l := by
  obtain ⟨hmem, l, hget, hne⟩ := h
  exact ⟨l, mem_neighbors_iff.mpr ⟨hmem, hget, hne, rfl⟩, hget⟩

theorem missingF_insertKV (s : SpatialHashMap) (res : List (Digest × List Entity))
    (k : Digest) (v : List Entity) :
    missingF s (insertKV res k v) = (missingF s res).erase k := by
  unfold missingF
  ext d
  simp only [Finset.mem_filter, Finset.mem_erase, List.mem_toFinset, insertKV_lookup]
  by_cases hd : d = k
  · simp [hd]
  · simp [hd]

theorem fold_lookup_mono (ts : List (Digest × GridCell × List Entity)) (d : Digest) :
    ∀ (res : List (Digest × List Entity)) (stack : List GridCell),
      (lookupKey d res).isSome →
      (lookupKey d (ts.foldl floodFoldStep (res, stack)).1).isSome := by
  induction ts with
  | nil =>
    intro res stack hd
    simpa using hd
  | cons t ts ih =>
    intro res stack hd
    rw [List.foldl_cons]
    unfold floodFoldStep
    split <;>
    · apply ih
      rw [insertKV_lookup]
      split <;> simp [hd]

theorem fold_lookup_inserted (ts : List (Digest × GridCell × List Entity))
    (t0 : Digest × GridCell × List Entity) :
    ∀ (res : List (Digest × List Entity)) (stack : List GridCell), t0 ∈ ts →
      (lookupKey t0.1 (ts.foldl floodFoldStep (res, stack)).1).isSome := by
  induction ts with
  | nil =>
    intro res stack ht
    exact absurd ht (List.not_mem_nil _)
  | cons t ts ih =>
    intro res stack ht
    rw [List.foldl_cons]
    rcases List.mem_cons.mp ht with rfl | hmem
    · unfold floodFoldStep
      split <;>
      · apply fold_lookup_mono
        rw [insertKV_lookup]
        simp
    · unfold floodFoldStep
      split <;> exact ih _ _ hmem

theorem fold_res_mem (ts : List (Digest × GridCell × List Entity)) :
    ∀ (res : List (Digest × List Entity)) (stack : List GridCell)
      (p : Digest × List Entity), p ∈ (ts.foldl floodFoldStep (res, stack)).1 →
      p ∈ res ∨ ∃ t ∈ ts, p = (t.1, t.2.2) := by
  induction ts with
  | nil =>
    intro res stack p hp
    exact Or.inl (by simpa using hp)
  | cons t ts ih =>
    intro res stack p hp
    rw [List.foldl_cons] at hp
    revert hp
    unfold floodFoldStep
    split <;>
    · intro hp
      rcases ih _ _ _ hp with hmem | ⟨t2, ht2, hpt⟩
      · rcases insertKV_mem hmem with h | h
        · exact Or.inl h
        · exact Or.inr ⟨t, List.mem_cons_self _ _, h⟩
      · exact Or.inr ⟨t2, List.mem_cons_of_mem _ ht2, hpt⟩

theorem fold_stack_shape (ts : List (Digest × GridCell × List Entity)) :
    ∀ (res : List (Digest × List Entity)) (stack : List GridCell),
      ∃ pu, (ts.foldl floodFoldStep (res, stack)).2 = pu ++ stack ∧
        ∀ b ∈ pu, ∃ t ∈ ts, t.2.1 = b := by
  induction ts with
  | nil =>
    intro res stack
    exact ⟨[], by simp, by simp⟩
  | cons t ts ih =>
    intro res stack
    rw [List.foldl_cons]
    simp only [floodFoldStep]
    split
    · obtain ⟨pu, hpu, hb⟩ := ih (insertKV res t.1 t.2.2) stack
      refine ⟨pu, hpu, ?_⟩
      intro b hbm
      obtain ⟨t2, ht2, hb2⟩ := hb b hbm
      exact ⟨t2, List.mem_cons_of_mem _ ht2, hb2⟩
    · obtain ⟨pu, hpu, hb⟩ := ih (insertKV res t.1 t.2.2) (t.2.1 :: stack)
      refine ⟨pu ++ [t.2.1], by rw [hpu]; simp, ?_⟩
      intro b hbm
      rw [List.mem_append] at hbm
      rcases hbm with h | h
      · obtain ⟨t2, ht2, hb2⟩ := hb b h
        exact ⟨t2, List.mem_cons_of_mem _ ht2, hb2⟩
      · rw [List.mem_singleton] at h
        exact ⟨t, List.mem_cons_self _ _, h.symm⟩

theorem fold_pushed (ts : List (Digest × GridCell × List Entity)) :
    ∀ (res : List (Digest × List Entity)) (stack : List GridCell) (d : Digest),
      (∃ t ∈ ts, t.1 = d) → lookupKey d res = none →
      ∃ t ∈ ts, t.1 = d ∧ t.2.1 ∈ (ts.foldl floodFoldStep (res, stack)).2 := by
  induction ts with
  | nil =>
    intro res stack d hex hnone
    obtain ⟨t, ht, _⟩ := hex
    exact absurd ht (List.not_mem_nil _)
  | cons t ts ih =>
    intro res stack d hex hnone
    rw [List.foldl_cons]
    by_cases htd : t.1 = d
    · have hns : ¬ (lookupKey t.1 res).isSome := by
        rw [htd, hnone]
        simp
      simp only [floodFoldStep]
      rw [if_neg hns]
      obtain ⟨pu, hpu, _⟩ := fold_stack_shape ts (insertKV res t.1 t.2.2) (t.2.1 :: stack)
      refine ⟨t, List.mem_cons_self _ _, htd, ?_⟩
      rw [hpu]
      exact List.mem_append_right _ (List.mem_cons_self _ _)
    · have hex2 : ∃ t2 ∈ ts, t2.1 = d := by
        obtain ⟨t2, ht2, h2⟩ := hex
        rcases List.mem_cons.mp ht2 with rfl | hm2
        · exact absurd h2 htd
        · exact ⟨t2, hm2, h2⟩
      have hnone2 : lookupKey d (insertKV res t.1 t.2.2) = none := by
        rw [insertKV_lookup, if_neg (fun hc => htd hc.symm)]
        exact hnone
      simp only [floodFoldStep]
      split <;>
      · obtain ⟨t2, ht2, h2, hmem⟩ := ih _ _ d hex2 hnone2
        exact ⟨t2, List.mem_cons_of_mem _ ht2, h2, hmem⟩

theorem fold_measure (s : SpatialHashMap) (ts : List (Digest × GridCell × List Entity)) :
    ∀ (res : List (Digest × List Entity)) (stack : List GridCell),
      (∀ t ∈ ts, (lookupKey t.1 s.map).isSome) →
      (ts.foldl floodFoldStep (res, stack)).2.length +
          2 * (missingF s (ts.foldl floodFoldStep (res, stack)).1).card ≤
        stack.length + 2 * (missingF s res).card := by
  induction ts with
  | nil =>
    intro res stack hts
    simp
  | cons t ts ih =>
    intro res stack hts
    rw [List.foldl_cons]
    have hkey : (lookupKey t.1 s.map).isSome := hts t (List.mem_cons_self _ _)
    have hts2 : ∀ t2 ∈ ts, (lookupKey t2.1 s.map).isSome :=
      fun t2 h2 => hts t2 (List.mem_cons_of_mem _ h2)
    simp only [floodFoldStep]
    split
    · next hsome =>
      have hih := ih (insertKV res t.1 t.2.2) stack hts2
      have hle : (missingF s (insertKV res t.1 t.2.2)).card ≤ (missingF s res).card := by
        rw [missingF_insertKV]
        exact Finset.card_erase_le
      omega
    · next hnone =>
      rw [Option.not_isSome_iff_eq_none] at hnone
      have hmem : t.1 ∈ missingF s res := by
        unfold missingF
        rw [Finset.mem_filter, List.mem_toFinset]
        exact ⟨lookupKey_isSome_iff.mp hkey, hnone⟩
      have hcard : (missingF s (insertKV res t.1 t.2.2)).card = (missingF s res).card - 1 := by
        rw [missingF_insertKV]
        exact Finset.card_erase_of_mem hmem
      have hpos : 0 < (missingF s res).card := Finset.card_pos.mpr ⟨t.1, hmem⟩
      have hih := ih (insertKV res t.1 t.2.2) (t.2.1 :: stack) hts2
      simp only [List.length_cons] at hih
      omega

theorem floodLoop_isSome_of_le (s : SpatialHashMap) (r : Nat) (hf : GridCell → Digest) :
    ∀ (fuel : Nat) (stack : List GridCell) (res : List (Digest × List Entity)),
      stack.length + 2 * (missingF s res).card ≤ fuel →
      (floodLoop s r hf fuel stack res).isSome := by
  intro fuel
  induction fuel with
  | zero =>
    intro stack res hle
    cases stack with
    | nil => simp [floodLoop]
    | cons c st =>
      simp only [List.length_cons] at hle
      omega
  | succ fuel ih =>
    intro stack res hle
    cases stack with
    | nil => simp [floodLoop]
    | cons c st =>
      simp only [floodLoop]
      apply ih
      have hts : ∀ t ∈ s.neighbors r hf c, (lookupKey t.1 s.map).isSome :=
        fun t ht => neighbors_key_isSome ht
      have hfold := fold_measure s (s.neighbors r hf c) res st hts
      simp only [List.length_cons] at hle
      unfold floodStep
      omega

theorem flood_runs (s : SpatialHashMap) (r : Nat) (hf : GridCell → Digest) (cell : GridCell) :
    ∃ out, floodLoop s r hf (1 + 2 * s.map.length) [cell] [] = some out ∧
      s.neighbors_flood r hf cell = out := by
  have hcard : (missingF s []).card ≤ s.map.length := by
    calc (missingF s []).card ≤ (s.map.map Prod.fst).toFinset.card :=
          Finset.card_filter_le _ _
      _ ≤ (s.map.map Prod.fst).length := (s.map.map Prod.fst).toFinset_card_le
      _ = s.map.length := List.length_map _ _
  have hsome := floodLoop_isSome_of_le s r hf (1 + 2 * s.map.length) [cell] []
    (by simp only [List.length_singleton]; omega)
  obtain ⟨out, hout⟩ := Option.isSome_iff_exists.mp hsome
  refine ⟨out, hout, ?_⟩
  unfold SpatialHashMap.neighbors_flood
  rw [hout]
  rfl

theorem floodStep_inv (s : SpatialHashMap) (r : Nat) (hf : GridCell → Digest)
    (c0 : GridCell) (hinj : Function.Injective hf) (c : GridCell)
    (stack : List GridCell) (res : List (Digest × List Entity))
    (inv : FloodInv s r hf c0 (c :: stack) res) :
    FloodInv s r hf c0 (floodStep s r hf c res stack).2 (floodStep s r hf c res stack).1 := by
  obtain ⟨i1, i2, i3, i4⟩ := inv
  unfold floodStep
  have hcReach : c = c0 ∨ Relation.TransGen (StepsTo s r hf) c0 c :=
    i2 c (List.mem_cons_self _ _)
  have hReachSucc : ∀ c2, StepsTo s r hf c c2 →
      Relation.TransGen (StepsTo s r hf) c0 c2 := by
    intro c2 hstep
    rcases hcReach with rfl | hr
    · exact Relation.TransGen.single hstep
    · exact Relation.TransGen.tail hr hstep
  obtain ⟨pu, hpu, hpub⟩ := fold_stack_shape (s.neighbors r hf c) res stack
  have hclosed : ∀ c2, StepsTo s r hf c c2 →
      (lookupKey (hf c2) ((s.neighbors r hf c).foldl floodFoldStep (res, stack)).1).isSome := by
    intro c2 hstep
    obtain ⟨l, hmem, _⟩ := neighbors_complete hstep
    exact fold_lookup_inserted (s.neighbors r hf c) (hf c2, c2, l) res stack hmem
  refine ⟨?_, ?_, ?_, ?_⟩
  · intro p hp
    rcases fold_res_mem (s.neighbors r hf c) res stack p hp with hmem | ⟨t, ht, rfl⟩
    · exact i1 p hmem
    · refine ⟨(neighbors_get ht).1, t.2.1, hReachSucc _ (stepsTo_of_mem_neighbors ht), ?_⟩
      exact (mem_neighbors_iff.mp ht).2.2.2
  · intro b hb
    rw [hpu, List.mem_append] at hb
    rcases hb with hb | hb
    · obtain ⟨t, ht, hteq⟩ := hpub b hb
      subst hteq
      exact Or.inr (hReachSucc _ (stepsTo_of_mem_neighbors ht))
    · exact i2 b (List.mem_cons_of_mem _ hb)
  · intro cc hcc
    by_cases hold : (lookupKey (hf cc) res).isSome
    · rcases i3 cc hold with hstk | hcl
      · rcases List.mem_cons.mp hstk with rfl | htail
        · right
          intro c2 hstep
          exact hclosed c2 hstep
        · left
          rw [hpu]
          exact List.mem_append_right _ htail
      · right
        intro c2 hstep
        exact fold_lookup_mono (s.neighbors r hf c) (hf c2) res stack (hcl c2 hstep)
    · left
      rw [Option.not_isSome_iff_eq_none] at hold
      have hex : ∃ t ∈ s.neighbors r hf c, t.1 = hf cc := by
        obtain ⟨v, hv2⟩ := Option.isSome_iff_exists.mp hcc
        rcases fold_res_mem (s.neighbors r hf c) res stack (hf cc, v)
            (mem_of_lookupKey hv2) with hmem | ⟨t, ht, hpt⟩
        · have hns : ¬ (lookupKey (hf cc) res).isSome = true := by
            rw [hold]
            simp
          exact absurd (lookupKey_isSome_of_mem hmem) hns
        · exact ⟨t, ht, (congrArg Prod.fst hpt).symm⟩
      obtain ⟨t, ht, hkey, hstk⟩ := fold_pushed (s.neighbors r hf c) res stack (hf cc) hex hold
      have hfeq : hf t.2.1 = hf cc := by
        rw [← (mem_neighbors_iff.mp ht).2.2.2]
        exact hkey
      rw [← hinj hfeq]
      exact hstk
  · rcases i4 with hstk | hcl
    · rcases List.mem_cons.mp hstk with rfl | htail
      · right
        intro c2 hstep
        exact hclosed c2 hstep
      · left
        rw [hpu]
        exact List.mem_append_right _ htail
    · right
      intro c2 hstep
      exact fold_lookup_mono (s.neighbors r hf c) (hf c2) res stack (hcl c2 hstep)

theorem floodLoop_inv (s : SpatialHashMap) (r : Nat) (hf : GridCell → Digest)
    (c0 : GridCell) (hinj : Function.Injective hf) :
    ∀ (fuel : Nat) (stack : List GridCell) (res out : List (Digest × List Entity)),
      FloodInv s r hf c0 stack res →
      floodLoop s r hf fuel stack res = some out →
      FloodInv s r hf c0 [] out := by
  intro fuel
  induction fuel with
  | zero =>
    intro stack res out hinv heq
    cases stack with
    | nil =>
      obtain rfl : res = out := by simpa [floodLoop] using heq
      exact hinv
    | cons c st => simp [floodLoop] at heq
  | succ fuel ih =>
    intro stack res out hinv heq
    cases stack with
    | nil =>
      obtain rfl : res = out := by simpa [floodLoop] using heq
      exact hinv
    | cons c st =>
      simp only [floodLoop] at heq
      exact ih _ _ out (floodStep_inv s r hf c0 hinj c st res hinv) heq

theorem flood_inv_final (s : SpatialHashMap) (r : Nat) (hf : GridCell → Digest)
    (c0 : GridCell) (hinj : Function.Injective hf) :
    ∀ (d : Digest) (l : List Entity),
      lookupKey d (s.neighbors_flood r hf c0) = some l ↔
      ∃ c, Relation.TransGen (StepsTo s r hf) c0 c ∧ d = hf c ∧ s.get d = some l := by
  obtain ⟨out, hout, hflood⟩ := flood_runs s r hf c0
  have hinv0 : FloodInv s r hf c0 [c0] [] := by
    refine ⟨?_, ?_, ?_, ?_⟩
    · intro p hp
      exact absurd hp (List.not_mem_nil _)
    · intro b hb
      rw [List.mem_singleton] at hb
      exact Or.inl hb
    · intro cc hcc
      simp [lookupKey] at hcc
    · exact Or.inl (List.mem_singleton_self _)
  obtain ⟨f1, _, f3, f4⟩ := floodLoop_inv s r hf c0 hinj _ _ _ out hinv0 hout
  rw [hflood]
  have hkey : ∀ c, Relation.TransGen (StepsTo s r hf) c0 c →
      (lookupKey (hf c) out).isSome := by
    intro c hreach
    induction hreach with
    | single hstep =>
      rcases f4 with hstk | hcl
      · exact absurd hstk (List.not_mem_nil _)
      · exact hcl _ hstep
    | tail hr hstep ihr =>
      rcases f3 _ ihr with hstk | hcl
      · exact absurd hstk (List.not_mem_nil _)
      · exact hcl _ hstep
  intro d l
  constructor
  · intro hl
    obtain ⟨hget, cc, hreach, hkeq⟩ := f1 (d, l) (mem_of_lookupKey hl)
    exact ⟨cc, hreach, hkeq, hget⟩
  · rintro ⟨c, hreach, rfl, hget⟩
    obtain ⟨l2, hl2⟩ := Option.isSome_iff_exists.mp (hkey c hreach)
    obtain ⟨hget2, _⟩ := f1 (hf c, l2) (mem_of_lookupKey hl2)
    rw [hl2]
    have hl2l : l2 = l := Option.some_injective _ (hget2.symm.trans hget)
    rw [hl2l]

theorem intCode_injective : Function.Injective intCode := by
  intro a b hab
  unfold intCode at hab
  split at hab <;> split at hab <;> omega

theorem cellCode_injective : Function.Injective cellCode := by
  intro a b hab
  unfold cellCode at hab
  obtain ⟨h1, h2⟩ := Nat.pair_eq_pair.mp hab
  obtain ⟨h3, h4⟩ := Nat.pair_eq_pair.mp h2
  have hx := intCode_injective h1
  have hy := intCode_injective h3
  have hz := intCode_injective h4
  cases a
  cases b
  simp_all

theorem lookupKey_filter_ne {β : Type} (e : Nat) (l : List (Nat × β)) :
    lookupKey e (l.filter (fun q => decide (q.1 ≠ e))) = none := by
  induction l with
  | nil => rfl
  | cons p ps ih =>
    rw [List.filter_cons]
    by_cases hp : p.1 = e
    · rw [if_neg (by simp [hp])]
      exact ih
    · rw [if_pos (by simpa using hp)]
      rw [lookupKey, if_neg hp]
      exact ih

theorem insert_of_reverse_some_eq {s : SpatialHashMap} {e : Entity} {d : Digest}
    (h : lookupKey e s.reverse_map = some d) : s.insert e d = s := by
  unfold SpatialHashMap.insert
  rw [h]
  simp

theorem insert_of_reverse_some_ne {s : SpatialHashMap} {e : Entity} {d d0 : Digest}
    (h : lookupKey e s.reverse_map = some d0) (hne : d ≠ d0) :
    s.insert e d = SpatialHashMap.mapEntryInsert
      ⟨s.map.map (fun p => if p.1 = d0 then (p.1, p.2.erase e) else p),
       s.reverse_map.map (fun q => if q.1 = e then (q.1, d) else q)⟩ e d := by
  unfold SpatialHashMap.insert
  rw [h]
  simp [hne]

theorem mapEntryInsert_mem_bucket (s : SpatialHashMap) (e : Entity) (k : Digest) :
    ∀ p ∈ (s.mapEntryInsert e k).map, p.1 = k → e ∈ p.2 := by
  intro p hp hpk
  unfold SpatialHashMap.mapEntryInsert at hp
  split at hp
  · rw [List.mem_map] at hp
    obtain ⟨q, hq, hfq⟩ := hp
    by_cases hqk : q.1 = k
    · rw [← hfq, if_pos hqk]
      exact mem_bucketInsert_self _ _
    · rw [← hfq, if_neg hqk] at hpk
      exact absurd hpk hqk
  · next hnone =>
    rw [List.mem_append] at hp
    rcases hp with hp | hp
    · exfalso
      apply hnone
      apply lookupKey_isSome_of_mem (v := p.2)
      rw [← hpk]
      exact hp
    · rw [List.mem_singleton] at hp
      subst hp
      simp

theorem filter_key_of_lookup {β : Type} {l : List (Nat × β)} {d : Nat} {v : β}
    (hnd : (l.map Prod.fst).Nodup) (h : lookupKey d l = some v) :
    l.filter (fun p => decide (p.1 = d)) = [(d, v)] := by
  induction l with
  | nil => simp [lookupKey] at h
  | cons p ps ih =>
    rw [List.map_cons, List.nodup_cons] at hnd
    obtain ⟨hp1, hps⟩ := hnd
    rw [lookupKey] at h
    rw [List.filter_cons]
    by_cases hpk : p.1 = d
    · rw [if_pos hpk] at h
      obtain rfl : p.2 = v := Option.some_injective _ h
      rw [if_pos (by simpa using hpk)]
      have hfil : ps.filter (fun q => decide (q.1 = d)) = [] := by
        rw [List.filter_eq_nil_iff]
        intro q hq
        simp only [decide_eq_true_eq]
        intro hqd
        apply hp1
        rw [List.mem_map]
        exact ⟨q, hq, hqd.trans hpk.symm⟩
      rw [hfil]
      have hpd : p = (d, p.2) := by
        rw [← hpk]
      exact congrArg (fun x => [x]) hpd
    · rw [if_neg hpk] at h
      rw [if_neg (by simpa using hpk)]
      exact ih hps h

/-- Claim C1: the claim says `neighbors` enumerates exactly the cube of
Chebyshev radius r (for r = 1 the 27 offsets in \x7b-1,0,1\x7d on every axis).
Evaluating the embedded enumeration at the failing input r = 1: the cube
offset (1,0,0) is never enumerated, the out-of-cube offset (25,1,7) is,
and consequently `neighbors` misses an entity one cell away on the x axis
(r = 0 does enumerate exactly the origin, and 27 candidates are produced,
but they are not the cube). -/
theorem neighbors_candidate_cube_bug :
    neighborOffsets 0 = [⟨0, 0, 0⟩] ∧
    (neighborOffsets 1).length = 27 ∧
    (⟨1, 0, 0⟩ : GridCell) ∉ neighborOffsets 1 ∧
    (⟨25, 1, 7⟩ : GridCell) ∈ neighborOffsets 1 ∧
    (SpatialHashMap.mk [(cellCode ⟨1, 0, 0⟩, [7])] []).neighbors 1 cellCode ⟨0, 0, 0⟩ = [] := by
  decide

/-- Claim C2: `remove` (modelled from the spec; src has no such operation)
deletes the entity from its digest's bucket and from the reverse map, so on
a well-formed index the entity is afterwards in no bucket, the reverse map
no longer knows it, removing an absent entity is a no-op, and a subsequent
upsert takes the fresh-insert path of `insert`. -/
theorem remove_correct (s : SpatialHashMap) (e : Entity) (hg : GoodState s) :
    (∀ (d : Digest) (l : List Entity), (s.remove e).get d = some l → e ∉ l) ∧
    lookupKey e (s.remove e).reverse_map = none ∧
    (lookupKey e s.reverse_map = none → s.remove e = s) ∧
    (∀ d, (s.remove e).insert e d = (s.remove e).mapEntryInsert e d) := by
  obtain ⟨hmk, hrk, hbn, hfw, hbw⟩ := hg
  have hnoop : lookupKey e s.reverse_map = none → s.remove e = s := by
    intro h
    unfold SpatialHashMap.remove
    rw [h]
  have hrevnone : lookupKey e (s.remove e).reverse_map = none := by
    rcases hre : lookupKey e s.reverse_map with _ | d0
    · rw [hnoop hre]
      exact hre
    · unfold SpatialHashMap.remove
      rw [hre]
      exact lookupKey_filter_ne e s.reverse_map
  refine ⟨?_, hrevnone, hnoop, fun d => insert_of_reverse_none d hrevnone⟩
  intro d l hget hel
  rcases hre : lookupKey e s.reverse_map with _ | d0
  · rw [hnoop hre] at hget
    unfold SpatialHashMap.get at hget
    have hsome := hbw (d, l) (mem_of_lookupKey hget) e hel
    rw [hsome] at hre
    exact Option.noConfusion hre
  · unfold SpatialHashMap.remove at hget
    rw [hre] at hget
    unfold SpatialHashMap.get at hget
    dsimp only at hget
    rw [lookupKey_map_keyfun d d0 (fun b => b.erase e) s.map] at hget
    by_cases hd : d = d0
    · rw [if_pos hd] at hget
      rcases hlk : lookupKey d s.map with _ | l0
      · rw [hlk] at hget
        exact Option.noConfusion hget
      · rw [hlk] at hget
        simp only [Option.map_some'] at hget
        obtain rfl : l0.erase e = l := Option.some_injective _ hget
        have hl0 : l0.Nodup := hbn (d, l0) (mem_of_lookupKey hlk)
        rw [List.Nodup.mem_erase_iff hl0] at hel
        exact hel.1 rfl
    · rw [if_neg hd] at hget
      have hsome := hbw (d, l) (mem_of_lookupKey hget) e hel
      rw [hsome] at hre
      exact hd (Option.some_injective _ hre)

/-- Witness for C2 at a concrete well-formed index. -/
theorem remove_correct_witness :
    GoodState sampleGood ∧
    ((∀ (d : Digest) (l : List Entity), (sampleGood.remove 1).get d = some l → 1 ∉ l) ∧
     lookupKey 1 (sampleGood.remove 1).reverse_map = none ∧
     (lookupKey 1 sampleGood.reverse_map = none → sampleGood.remove 1 = sampleGood) ∧
     (∀ d, (sampleGood.remove 1).insert 1 d = (sampleGood.remove 1).mapEntryInsert 1 d)) :=
  ⟨by decide, remove_correct sampleGood 1 (by decide)⟩

/-- Claim C3: the claim says that after upsert(e, d1) then upsert(e, d2)
with d1 different from d2, get(d1) no longer contains e and the reverse map
records d2.  Evaluating the embedded code at the failing input (fresh index,
e = 0, d1 = 1, d2 = 2): the entity is still in bucket 1 and the reverse map
records nothing, because `insert` never creates a reverse-map entry for a
new entity, so the move path is never taken. -/
theorem upsert_move_bug :
    ((SpatialHashMap.default.insert 0 1).insert 0 2).get 1 = some [0] ∧
    ((SpatialHashMap.default.insert 0 1).insert 0 2).get 2 = some [0] ∧
    lookupKey 0 ((SpatialHashMap.default.insert 0 1).insert 0 2).reverse_map = none := by
  decide

/-- Claim C4: the claim says the two maps stay strict inverses under
upserts and no entity is in two buckets.  Evaluating the embedded code on
the reachable state (upsert(0,1); upsert(0,2)): entity 0 is a member of the
buckets of both digest 1 and digest 2, and the reverse map is empty, so the
maps are not strict inverses. -/
theorem strict_inverse_bug :
    SpatialHashMap.Reachable ((SpatialHashMap.default.insert 0 1).insert 0 2) ∧
    (∃ l, ((SpatialHashMap.default.insert 0 1).insert 0 2).get 1 = some l ∧ 0 ∈ l) ∧
    (∃ l, ((SpatialHashMap.default.insert 0 1).insert 0 2).get 2 = some l ∧ 0 ∈ l) ∧
    (1 : Digest) ≠ 2 ∧
    ((SpatialHashMap.default.insert 0 1).insert 0 2).reverse_map = [] := by
  refine ⟨?_, by decide, by decide, by decide, by decide⟩
  exact SpatialHashMap.Reachable.step _ 0 2
    (SpatialHashMap.Reachable.step _ 0 1 SpatialHashMap.Reachable.base)

/-- Claim C5: with a collision-free digest assignment, `neighbors_flood`
returns exactly the buckets of the non-empty cells reachable from the
origin by chains of `neighbors` steps through non-empty cells, and an
entity appears in the result exactly when it lies in the bucket of such a
reachable cell. -/
theorem flood_transitive_closure (s : SpatialHashMap) (r : Nat) (hf : GridCell → Digest)
    (c0 : GridCell) (hinj : Function.Injective hf) :
    (∀ (d : Digest) (l : List Entity),
      lookupKey d (s.neighbors_flood r hf c0) = some l ↔
      ∃ c, Relation.TransGen (StepsTo s r hf) c0 c ∧ d = hf c ∧ s.get d = some l) ∧
    (∀ e, (∃ d l, lookupKey d (s.neighbors_flood r hf c0) = some l ∧ e ∈ l) ↔
      ∃ c, Relation.TransGen (StepsTo s r hf) c0 c ∧
        ∃ l, s.get (hf c) = some l ∧ e ∈ l) := by
  have hchar := flood_inv_final s r hf c0 hinj
  refine ⟨hchar, ?_⟩
  intro e
  constructor
  · rintro ⟨d, l, hl, hel⟩
    obtain ⟨c, hreach, rfl, hget⟩ := (hchar d l).mp hl
    exact ⟨c, hreach, l, hget, hel⟩
  · rintro ⟨c, hreach, l, hget, hel⟩
    exact ⟨hf c, l, (hchar (hf c) l).mpr ⟨c, hreach, rfl, hget⟩, hel⟩

/-- Witness for C5 at a concrete two-cell index with the injective digest
assignment. -/
theorem flood_transitive_closure_witness :
    (∀ (d : Digest) (l : List Entity),
      lookupKey d (sampleIndex.neighbors_flood 1 cellCode ⟨0, 0, 0⟩) = some l ↔
      ∃ c, Relation.TransGen (StepsTo sampleIndex 1 cellCode) ⟨0, 0, 0⟩ c ∧
        d = cellCode c ∧ sampleIndex.get d = some l) ∧
    (∀ e, (∃ d l, lookupKey d (sampleIndex.neighbors_flood 1 cellCode ⟨0, 0, 0⟩) = some l ∧
        e ∈ l) ↔
      ∃ c, Relation.TransGen (StepsTo sampleIndex 1 cellCode) ⟨0, 0, 0⟩ c ∧
        ∃ l, sampleIndex.get (cellCode c) = some l ∧ e ∈ l) :=
  flood_transitive_closure sampleIndex 1 cellCode ⟨0, 0, 0⟩ cellCode_injective

/-- Claim C6: the flood-fill loop terminates on every input: the fuel
`1 + 2 * s.map.length` dominates the loop measure (stack length plus twice
the number of occupied digests not yet in the result, which shrinks because
a cell is pushed only when its digest is newly inserted), so the loop
reaches the empty stack and `neighbors_flood` returns its fixpoint. -/
theorem flood_terminates (s : SpatialHashMap) (r : Nat) (hf : GridCell → Digest)
    (cell : GridCell) :
    ∃ out, floodLoop s r hf (1 + 2 * s.map.length) [cell] [] = some out ∧
      s.neighbors_flood r hf cell = out :=
  flood_runs s r hf cell

/-- Claim C7: upsert is idempotent: upserting the same (entity, digest)
twice in a row leaves the index state (both maps) identical to upserting it
once, for every starting state. -/
theorem upsert_idempotent (s : SpatialHashMap) (e : Entity) (d : Digest) :
    (s.insert e d).insert e d = s.insert e d := by
  rcases hre : lookupKey e s.reverse_map with _ | d0
  · have h1 : s.insert e d = s.mapEntryInsert e d := insert_of_reverse_none d hre
    have hrev1 : lookupKey e (s.insert e d).reverse_map = none := by
      rw [h1, mapEntryInsert_reverse]
      exact hre
    rw [insert_of_reverse_none d hrev1]
    have hsome1 : (lookupKey d (s.insert e d).map).isSome := by
      have hget1 : (s.insert e d).get d = some (bucketInsert ((s.get d).getD []) e) := by
        rw [h1, mapEntryInsert_get]
        simp
      unfold SpatialHashMap.get at hget1
      rw [hget1]
      rfl
    unfold SpatialHashMap.mapEntryInsert
    rw [if_pos hsome1]
    have hmap : (s.insert e d).map.map
        (fun p => if p.1 = d then (p.1, bucketInsert p.2 e) else p) = (s.insert e d).map := by
      apply map_id_of_mem
      intro p hp
      by_cases hpk : p.1 = d
      · rw [if_pos hpk]
        have hp2 : p ∈ (s.mapEntryInsert e d).map := by
          rw [← h1]
          exact hp
        have he : e ∈ p.2 := mapEntryInsert_mem_bucket s e d p hp2 hpk
        rw [bucketInsert_eq_of_mem he]
      · rw [if_neg hpk]
    rw [hmap]
  · by_cases hd : d = d0
    · subst hd
      have h1 : s.insert e d = s := insert_of_reverse_some_eq hre
      rw [h1]
      exact h1
    · have h1 := insert_of_reverse_some_ne hre hd
      have hrev1 : lookupKey e (s.insert e d).reverse_map = some d := by
        rw [h1, mapEntryInsert_reverse]
        show lookupKey e (s.reverse_map.map (fun q => if q.1 = e then (q.1, d) else q)) = some d
        rw [lookupKey_map_keyfun e e (fun _ => d) s.reverse_map, if_pos rfl, hre]
        rfl
      exact insert_of_reverse_some_eq hrev1

/-- Claim C8: hashing is deterministic (equal frame and cell give equal
digests) and the partial stage is reusable without corruption: `generate`
clones the partial state, so a sequence of completions against one
`PartialSpatialHash` leaves it unchanged and returns for every cell exactly
the digest a stand-alone completion would return. -/
theorem hash_deterministic_and_reusable (a b : Nat × GridCell)
    (hfr : a.1 = b.1) (hc : a.2 = b.2) :
    SpatialHash.new a.1 a.2 = SpatialHash.new b.1 b.2 ∧
    (∀ (p : PartialSpatialHash) (cells : List GridCell),
      (p.generateSeq cells).2 = p ∧ (p.generateSeq cells).1 = cells.map p.generate) ∧
    (∀ (parent : Nat) (cell : GridCell),
      SpatialHash.new parent cell = (PartialSpatialHash.new parent).generate cell) := by
  refine ⟨by rw [hfr, hc], ?_, fun parent cell => rfl⟩
  intro p cells
  have hfold : ∀ (acc : List Digest),
      cells.foldl (fun acc c => (acc.1 ++ [acc.2.generate c], acc.2)) (acc, p) =
        (acc ++ cells.map p.generate, p) := by
    induction cells with
    | nil =>
      intro acc
      simp
    | cons c cs ih =>
      intro acc
      rw [List.foldl_cons]
      rw [ih (acc ++ [p.generate c])]
      simp
  have h2 := hfold []
  constructor
  · unfold PartialSpatialHash.generateSeq
    rw [h2]
  · unfold PartialSpatialHash.generateSeq
    rw [h2]
    simp

/-- Witness for C8 at a concrete frame and cell. -/
theorem hash_deterministic_and_reusable_witness :
    SpatialHash.new 1 ⟨0, 1, 2⟩ = SpatialHash.new 1 ⟨0, 1, 2⟩ ∧
    (∀ (p : PartialSpatialHash) (cells : List GridCell),
      (p.generateSeq cells).2 = p ∧ (p.generateSeq cells).1 = cells.map p.generate) ∧
    (∀ (parent : Nat) (cell : GridCell),
      SpatialHash.new parent cell = (PartialSpatialHash.new parent).generate cell) :=
  hash_deterministic_and_reusable (1, ⟨0, 1, 2⟩) (1, ⟨0, 1, 2⟩) rfl rfl

/-- Claim C9: on every index state reachable by upserts, `iter` yields
pairwise-distinct digests, every yielded bucket is non-empty, and every
digest with a non-empty bucket is yielded exactly once (under the
reverse-map defect of `insert`, reachable states never contain a vacated
empty bucket, so the traversal is exactly the non-empty buckets). -/
theorem iter_nonempty_buckets (s : SpatialHashMap) (hr : s.Reachable) :
    ((s.iter.map Prod.fst).Nodup) ∧
    (∀ p ∈ s.iter, p.2 ≠ []) ∧
    (∀ (d : Digest) (l : List Entity), s.get d = some l →
      l ≠ [] ∧ s.iter.filter (fun p => decide (p.1 = d)) = [(d, l)]) := by
  obtain ⟨hrev, hkeys, hne⟩ := reachable_inv hr
  refine ⟨hkeys, fun p hp => hne p hp, ?_⟩
  intro d l hget
  unfold SpatialHashMap.get at hget
  exact ⟨hne (d, l) (mem_of_lookupKey hget), filter_key_of_lookup hkeys hget⟩

/-- Witness for C9 at a concrete reachable state. -/
theorem iter_nonempty_buckets_witness :
    (((SpatialHashMap.default.insert 1 5).iter.map Prod.fst).Nodup) ∧
    (∀ p ∈ (SpatialHashMap.default.insert 1 5).iter, p.2 ≠ []) ∧
    (∀ (d : Digest) (l : List Entity), (SpatialHashMap.default.insert 1 5).get d = some l →
      l ≠ [] ∧ (SpatialHashMap.default.insert 1 5).iter.filter
        (fun p => decide (p.1 = d)) = [(d, l)]) :=
  iter_nonempty_buckets _ (SpatialHashMap.Reachable.step _ 1 5 SpatialHashMap.Reachable.base)

/-- Claim C10: `get` returns none for a digest never inserted (in
particular on the default state), while moving the last entity out of a
bucket (when the reverse map knows the entity) leaves the now-empty bucket
in the forward map, so `get` then returns some empty set rather than none. -/
theorem vacated_bucket_some_empty (s : SpatialHashMap) (e : Entity) (d1 d2 : Digest)
    (h1 : lookupKey e s.reverse_map = some d1) (h2 : s.get d1 = some [e])
    (hne : d2 ≠ d1) :
    (s.insert e d2).get d1 = some [] ∧ (∀ d, SpatialHashMap.default.get d = none) := by
  refine ⟨?_, fun d => rfl⟩
  rw [insert_of_reverse_some_ne h1 hne, mapEntryInsert_get,
    if_neg (fun hc => hne hc.symm)]
  show lookupKey d1 (s.map.map (fun p => if p.1 = d1 then (p.1, p.2.erase e) else p)) =
    some []
  rw [lookupKey_map_keyfun d1 d1 (fun b => b.erase e) s.map, if_pos rfl]
  unfold SpatialHashMap.get at h2
  rw [h2]
  simp [List.erase_cons_head]

/-- Witness for C10 at a concrete index holding one entity in one bucket. -/
theorem vacated_bucket_some_empty_witness :
    lookupKey 0 (SpatialHashMap.mk [(1, [0])] [(0, 1)]).reverse_map = some 1 ∧
    (SpatialHashMap.mk [(1, [0])] [(0, 1)]).get 1 = some [0] ∧
    (2 : Digest) ≠ 1 ∧
    (((SpatialHashMap.mk [(1, [0])] [(0, 1)]).insert 0 2).get 1 = some [] ∧
      ∀ d, SpatialHashMap.default.get d = none) :=
  ⟨by decide, by decide, by decide,
    vacated_bucket_some_empty _ 0 1 2 (by decide) (by decide) (by decide)⟩
